import Mathlib

/-!
Verification of the reactive state/change-observation core (`ref` and
`reactive`) of the socket-app repository.

The `ref` primitive wraps a value behind a `{ value }` handle; objects are
deeply observed through lazily constructed proxies whose `get`/`set`/
`deleteProperty` traps emit `ChangeEvent`s.  The `reactive` primitive is a
single cell with subscriber fan-out and a delayed `history()` retrieval.

We shallowly embed the JavaScript object graph as an inductive `JSVal`
(association-list objects with a frozen flag so that `Reflect.set` /
`Reflect.deleteProperty` can report failure as in JS), and embed each proxy
trap as a pure function from the reachable state to the new state, the
reported success flag, and the list of emitted events.
-/

namespace SocketApp

/-- A JavaScript value: a primitive (modelled as an integer), `undefined`,
or an object given by its property list (insertion order preserved, as in
JS) together with a frozen flag (a frozen object rejects writes and
deletions of existing keys, which is how `Reflect.set` /
`Reflect.deleteProperty` come to return `false`). -/
inductive JSVal : Type where
  | prim (n : Int)
  | undefined
  | obj (frozen : Bool) (fields : List (String × JSVal))

/-- `val !== null && typeof val === 'object'` from the source's `isObject`. -/
def isObject : JSVal → Bool
  | .obj _ _ => true
  | _ => false

/-- Look up a property in an object's field list. -/
def lookupField : List (String × JSVal) → String → Option JSVal
  | [], _ => none
  | (k, v) :: rest, key => if k = key then some v else lookupField rest key

/-- Set a property in a field list: an existing key keeps its position,
a new key is appended (JS property-order semantics). -/
def setFieldList : List (String × JSVal) → String → JSVal → List (String × JSVal)
  | [], key, v => [(key, v)]
  | (k, w) :: rest, key, v =>
      if k = key then (k, v) :: rest else (k, w) :: setFieldList rest key v

/-- Remove a property from a field list. -/
def removeField : List (String × JSVal) → String → List (String × JSVal)
  | [], _ => []
  | (k, w) :: rest, key =>
      if k = key then rest else (k, w) :: removeField rest key

/-- `Reflect.get(target, key)`: property lookup, `undefined` when absent. -/
def reflectGet (t : JSVal) (k : String) : JSVal :=
  match t with
  | .obj _ fs => (lookupField fs k).getD .undefined
  | _ => .undefined

/-- `Reflect.set(target, key, v)`: returns the updated object and the
success flag.  A frozen object rejects the write and reports `false`. -/
def reflectSet (t : JSVal) (k : String) (v : JSVal) : JSVal × Bool :=
  match t with
  | .obj frozen fs =>
      if frozen then (t, false) else (.obj false (setFieldList fs k v), true)
  | _ => (t, false)

/-- `Reflect.deleteProperty(target, key)`: deleting an absent key is a
no-op that reports `true` (JS semantics); deleting an existing key of a
frozen object reports `false`. -/
def reflectDelete (t : JSVal) (k : String) : JSVal × Bool :=
  match t with
  | .obj frozen fs =>
      match lookupField fs k with
      | none => (t, true)
      | some _ =>
          if frozen then (t, false) else (.obj frozen (removeField fs k), true)
  | _ => (t, false)

/-- The `operation` field of a `ChangeEvent`. -/
inductive Op : Type where
  | set
  | del

/-- The `target` field of a `ChangeEvent`: either the root `wrapper`
object of the handle (outer proxy writes) or a deeply observed container
object (snapshot of the mutated container). -/
inductive EventTarget : Type where
  | rootWrapper
  | node (v : JSVal)

/-- The structured change description emitted to the registered callback. -/
structure ChangeEvent : Type where
  operation : Op
  path : List String
  target : EventTarget
  newValue : Option JSVal
  oldValue : JSVal

/-- Result of a mutation through a proxy trap: the new reachable state
seen from the given root, the trap's reported success flag, and the list
of callback invocations it performed. -/
structure MutResult : Type where
  root : JSVal
  ok : Bool
  events : List ChangeEvent

/-- Result of a property read through the observation machinery: either a
lazily constructed deep-observation layer over `target` with the given
accumulated path (`createProxy(target, path)`), or an unwrapped value. -/
inductive ReadRes : Type where
  | proxied (target : JSVal) (path : List String)
  | raw (v : JSVal)

/-- The `get` trap of `createProxy(target, path)`:
`if (key === 'value') return target;` then ordinary lookup, wrapping
object-valued properties in a fresh deeper proxy. -/
def createProxy_get (target : JSVal) (path : List String) (k : String) : ReadRes :=
  if k = "value" then .raw target
  else
    let v := reflectGet target k
    if isObject v then .proxied v (path ++ [k]) else .raw v

/-- One step of property access on a read result: reads on a proxied view
go through the `get` trap; reads on a raw value are ordinary un-trapped
property accesses. -/
def readStep (r : ReadRes) (k : String) : ReadRes :=
  match r with
  | .proxied t p => createProxy_get t p k
  | .raw v => .raw (reflectGet v k)

/-- The `get` trap of the outer handle proxy returned by `ref`:
`if (key === 'value') return target.value; return undefined;` where the
wrapper stores `createProxy(value)` when the value is an object. -/
def ref_outer_get (stored : JSVal) (k : String) : ReadRes :=
  if k = "value" then
    if isObject stored then .proxied stored [] else .raw stored
  else .raw .undefined

/-- The `set` trap of `createProxy`, acting at the container reached from
`container` by following `rest`; `pre` is the path accumulated so far
(the proxy's `path` argument).  Mirrors the source: capture
`oldValue = Reflect.get`, perform `Reflect.set`, and when the result is
`true` and a callback is registered emit
`{operation: 'set', path: [...path, key], target, newValue, oldValue}`. -/
def createProxy_setAux (cb : Bool) (pre : List String) (container : JSVal) :
    List String → String → JSVal → MutResult
  | [], k, v =>
      let oldValue := reflectGet container k
      let r := reflectSet container k v
      let evs := if r.2 && cb then
          [⟨.set, pre ++ [k], .node r.1, some v, oldValue⟩] else []
      ⟨r.1, r.2, evs⟩
  | j :: js, k, v =>
      let child := reflectGet container j
      let res := createProxy_setAux cb (pre ++ [j]) child js k v
      -- the child was mutated in place; the parent still holds it
      ⟨match container with
        | .obj f fs => .obj f (setFieldList fs j res.root)
        | other => other,
       res.ok, res.events⟩

/-- `ref.value.<path>.<k> = v` through the deep proxies: the nested
`set` trap, starting from the root stored object. -/
def createProxy_set (cb : Bool) (root : JSVal) (containerPath : List String)
    (k : String) (v : JSVal) : MutResult :=
  createProxy_setAux cb [] root containerPath k v

/-- The `deleteProperty` trap of `createProxy`, analogous to the `set`
trap: capture `oldValue`, perform `Reflect.deleteProperty`, and on a
`true` result with a registered callback emit
`{operation: 'delete', path: [...path, key], target, oldValue}`. -/
def createProxy_deleteAux (cb : Bool) (pre : List String) (container : JSVal) :
    List String → String → MutResult
  | [], k =>
      let oldValue := reflectGet container k
      let r := reflectDelete container k
      let evs := if r.2 && cb then
          [⟨.del, pre ++ [k], .node r.1, none, oldValue⟩] else []
      ⟨r.1, r.2, evs⟩
  | j :: js, k =>
      let child := reflectGet container j
      let res := createProxy_deleteAux cb (pre ++ [j]) child js k
      ⟨match container with
        | .obj f fs => .obj f (setFieldList fs j res.root)
        | other => other,
       res.ok, res.events⟩

/-- `delete ref.value.<path>.<k>` through the deep proxies. -/
def createProxy_delete (cb : Bool) (root : JSVal) (containerPath : List String)
    (k : String) : MutResult :=
  createProxy_deleteAux cb [] root containerPath k

/-- The `set` trap of the outer handle proxy returned by `ref`: the key
`value` always succeeds, stores the new value (re-proxied when it is an
object — proxying is erased in this embedding, the underlying value is
stored) and emits `{operation: 'set', path: [], target: wrapper,
newValue: target.value, oldValue}`; every other key is rejected with
`false`, mutating nothing and emitting nothing. -/
def ref_outer_set (cb : Bool) (stored : JSVal) (k : String) (v : JSVal) :
    MutResult :=
  if k = "value" then
    let oldValue := stored
    let evs := if cb then [⟨.set, [], .rootWrapper, some v, oldValue⟩] else []
    ⟨v, true, evs⟩
  else ⟨stored, false, []⟩

/-!
## Reactive container

`reactive<T>` builds a `Reactive` object with private fields `_value`,
`_values` (history log, initially empty) and `subscribers` (initially
empty).  Its `value` setter runs, in source order:
`this._value = newValue; this.subscribers.forEach((sub) => sub(newValue));
this._values.push(this._value);`.

A subscriber is embedded as a function from the written value to a flag
saying whether its invocation throws.  The setter is embedded as a
function returning the new state, an observable action trace (store,
each subscriber call, append) in the order the source performs them, and
a completion flag that is `false` when a subscriber threw: JavaScript's
`Array.prototype.forEach` lets the exception propagate immediately, so
the iteration stops and the statements after the `forEach` do not run. -/

/-- An observable step performed by the `value` setter of `Reactive`:
the assignment to `_value`, the invocation of the subscriber at a given
index with the written value, and the `push` onto `_values`. -/
inductive Action (T : Type) : Type where
  | store (v : T)
  | call (idx : Nat) (v : T)
  | append (v : T)
deriving DecidableEq

/-- The state of a `Reactive` instance: the current value, the history
log, and the subscriber list in registration order.  A subscriber maps
the value it receives to `true` exactly when its invocation throws. -/
structure ReactiveState (T : Type) : Type where
  _value : T
  _values : List T
  subscribers : List (T → Bool)

/-- `this.subscribers.forEach((sub) => sub(newValue))` with un-caught
exceptions: each subscriber in order is invoked (a `call` action); if it
throws, iteration stops at once and the flag `false` is returned. -/
def notifyAux {T : Type} (subs : List (T → Bool)) (i : Nat) (v : T) :
    List (Action T) × Bool :=
  match subs with
  | [] => ([], true)
  | s :: rest =>
      if s v then ([.call i v], false)
      else
        let r := notifyAux rest (i + 1) v
        (.call i v :: r.1, r.2)

/-- The `value` setter of `Reactive`: store the new value, notify every
subscriber in registration order, then push onto the history log — the
push runs only if the `forEach` completed without a subscriber throwing,
because the exception propagates out of the setter first.  Returns the
new state, the action trace in execution order, and the completion flag. -/
def setValue {T : Type} (st : ReactiveState T) (newValue : T) :
    ReactiveState T × List (Action T) × Bool :=
  let st1 : ReactiveState T := ⟨newValue, st._values, st.subscribers⟩
  let n := notifyAux st.subscribers 0 newValue
  if n.2 then
    (⟨st1._value, st1._values ++ [st1._value], st1.subscribers⟩,
     .store newValue :: (n.1 ++ [.append newValue]), true)
  else (st1, .store newValue :: n.1, false)

/-- `subscribe(...subscribers)`:
`subscribers.forEach((subscriber) => this.subscribers.push(subscriber))` —
each given function is pushed onto the subscriber list in argument order.
The method performs no other statement: it invokes nobody and touches
neither `_value` nor `_values`. -/
def subscribe {T : Type} (st : ReactiveState T) (newSubs : List (T → Bool)) :
    ReactiveState T :=
  newSubs.foldl (fun acc s => ⟨acc._value, acc._values, acc.subscribers ++ [s]⟩) st

/-- Apply the `value` setter once for each value in the list, in order
(keeping only the states; used to run a write sequence). -/
def runWrites {T : Type} (st : ReactiveState T) (vs : List T) : ReactiveState T :=
  vs.foldl (fun s v => (setValue s v).1) st

/-- Modelled from the spec: the `delay` helper imported from `./delay` is
not among the sources; the spec describes it as a timer-based, fixed,
non-zero, deterministic minimum wait.  The source calls it as
`delay(1000)`, so the wait is 1000 milliseconds. -/
def delayMs : Nat := 1000

/-- `async history() { await delay(1000); return this._values; }` on a
single-threaded timeline: invoked at time `t0` on state `st0`, it
resolves at `t0 + delayMs`; `writesDuring` are the values written through
the setter during the waiting window, and the promise resolves with the
live `_values` array as it stands at resolution time. -/
def historyRun (st0 : ReactiveState Int) (t0 : Nat) (writesDuring : List Int) :
    Nat × List Int :=
  (t0 + delayMs, (runWrites st0 writesDuring)._values)

/-- Is this action a subscriber invocation? -/
def isCall {T : Type} : Action T → Bool
  | .call _ _ => true
  | _ => false

/-- Is this action a push onto the history log? -/
def isAppend {T : Type} : Action T → Bool
  | .append _ => true
  | _ => false

/-- Every `append` action in the trace occurs strictly before every
`call` action (no subscriber invocation precedes a history append). -/
def appendsPrecedeCalls {T : Type} : List (Action T) → Bool
  | [] => true
  | a :: rest =>
      if isCall a then !(rest.any isAppend) && appendsPrecedeCalls rest
      else appendsPrecedeCalls rest

/-- Every `call` action in the trace occurs strictly before every
`append` action (the history append happens after subscriber fan-out). -/
def callsPrecedeAppends {T : Type} : List (Action T) → Bool
  | [] => true
  | a :: rest =>
      if isAppend a then !(rest.any isCall) && callsPrecedeAppends rest
      else callsPrecedeAppends rest

/-! ## Helper lemmas -/

/-- The deep `set` trap reports the success flag of the terminal
`Reflect.set`, and emits exactly one event when that flag is `true` and a
callback is registered, zero events otherwise. -/
theorem createProxy_setAux_events (cb : Bool) (p : List String) :
    ∀ (pre : List String) (container : JSVal) (k : String) (v : JSVal),
      (createProxy_setAux cb pre container p k v).events.length =
        (if (createProxy_setAux cb pre container p k v).ok && cb then 1 else 0) := by
  induction p with
  | nil =>
      intro pre container k v
      simp only [createProxy_setAux]
      by_cases h : ((reflectSet container k v).2 && cb) = true <;> simp [h]
  | cons j js ih =>
      intro pre container k v
      simp only [createProxy_setAux]
      exact ih (pre ++ [j]) (reflectGet container j) k v

/-- The deep `deleteProperty` trap reports the success flag of the
terminal `Reflect.deleteProperty`, and emits exactly one event when that
flag is `true` and a callback is registered, zero events otherwise. -/
theorem createProxy_deleteAux_events (cb : Bool) (p : List String) :
    ∀ (pre : List String) (container : JSVal) (k : String),
      (createProxy_deleteAux cb pre container p k).events.length =
        (if (createProxy_deleteAux cb pre container p k).ok && cb then 1 else 0) := by
  induction p with
  | nil =>
      intro pre container k
      simp only [createProxy_deleteAux]
      by_cases h : ((reflectDelete container k).2 && cb) = true <;> simp [h]
  | cons j js ih =>
      intro pre container k
      simp only [createProxy_deleteAux]
      exact ih (pre ++ [j]) (reflectGet container j) k

/-- When no registered subscriber throws on `v`, the `forEach` fan-out
completes. -/
theorem notifyAux_ok {T : Type} (subs : List (T → Bool)) (v : T)
    (h : ∀ s ∈ subs, s v = false) :
    ∀ i : Nat, (notifyAux subs i v).2 = true := by
  induction subs with
  | nil => intro i; rfl
  | cons s rest ih =>
      intro i
      have hs : s v = false := h s (by simp)
      simp only [notifyAux, hs, Bool.false_eq_true, if_false]
      exact ih (fun x hx => h x (by simp [hx])) (i + 1)

/-- Every action in the fan-out trace is a subscriber invocation. -/
theorem notifyAux_calls {T : Type} (subs : List (T → Bool)) (v : T) :
    ∀ i : Nat, ∀ a ∈ (notifyAux subs i v).1, isCall a = true := by
  induction subs with
  | nil => intro i a ha; simp [notifyAux] at ha
  | cons s rest ih =>
      intro i a ha
      cases hsv : s v with
      | true =>
          simp [notifyAux, hsv] at ha
          simp [ha, isCall]
      | false =>
          simp [notifyAux, hsv] at ha
          rcases ha with ha | ha
          · simp [ha, isCall]
          · exact ih (i + 1) a ha

/-- When the fan-out completes, the `value` setter stores the value,
appends it to the history log (no de-duplication) and keeps the
subscriber list. -/
theorem setValue_ok_state {T : Type} (st : ReactiveState T) (v : T)
    (h : ∀ s ∈ st.subscribers, s v = false) :
    (setValue st v).1 = ⟨v, st._values ++ [v], st.subscribers⟩ := by
  simp only [setValue]
  rw [if_pos (notifyAux_ok st.subscribers v h 0)]

/-- Running a write sequence against non-throwing subscribers appends
exactly the written values, in order, to the history log, and leaves the
subscriber list unchanged. -/
theorem runWrites_spec {T : Type} (subs : List (T → Bool))
    (hsubs : ∀ s ∈ subs, ∀ v, s v = false) :
    ∀ (vs : List T) (st : ReactiveState T), st.subscribers = subs →
      (runWrites st vs)._values = st._values ++ vs ∧
      (runWrites st vs).subscribers = subs := by
  intro vs
  induction vs with
  | nil => intro st hst; simp [runWrites, hst]
  | cons v rest ih =>
      intro st hst
      have hstep : (setValue st v).1 = ⟨v, st._values ++ [v], st.subscribers⟩ :=
        setValue_ok_state st v (fun s hs => hsubs s (hst ▸ hs) v)
      have : runWrites st (v :: rest) = runWrites (setValue st v).1 rest := rfl
      rw [this, hstep]
      have h2 := ih ⟨v, st._values ++ [v], st.subscribers⟩ (by simpa using hst)
      simpa [List.append_assoc] using h2

/-- A trace with no `append` action trivially has every call before every
append. -/
theorem callsPrecedeAppends_no_append {T : Type} :
    ∀ tr : List (Action T), (∀ a ∈ tr, isAppend a = false) →
      callsPrecedeAppends tr = true := by
  intro tr
  induction tr with
  | nil => intro _; rfl
  | cons a rest ih =>
      intro h
      have ha : isAppend a = false := h a (by simp)
      simp [callsPrecedeAppends, ha, ih (fun x hx => h x (by simp [hx]))]

/-- A subscriber-invocation action is not a history append. -/
theorem isAppend_false_of_isCall {T : Type} (a : Action T)
    (h : isCall a = true) : isAppend a = false := by
  cases a with
  | store w => rfl
  | call i w => rfl
  | append w => simp [isCall] at h

/-- A trace of pure subscriber calls followed by one final `append` has
every call before every append. -/
theorem callsPrecedeAppends_calls_append {T : Type} (v : T) :
    ∀ tr : List (Action T), (∀ a ∈ tr, isCall a = true) →
      callsPrecedeAppends (tr ++ [Action.append v]) = true := by
  intro tr
  induction tr with
  | nil => intro _; simp [callsPrecedeAppends, isAppend, isCall]
  | cons a rest ih =>
      intro h
      have ha : isCall a = true := h a (by simp)
      have hna : isAppend a = false := by
        cases a with
        | store w => rfl
        | call i w => rfl
        | append w => simp [isCall] at ha
      simp [callsPrecedeAppends, hna, ih (fun x hx => h x (by simp [hx]))]

/-! ## Claims -/

/-- C1: for a Ref over `{a: {b: 1}}` with a registered callback, the
nested write `ref.value.a.b = 2` succeeds and invokes the callback
exactly once, with operation SET, path `['a','b']` (relative to the Ref
root), oldValue `1` and newValue `2`. -/
theorem C1_nested_write_single_event :
    createProxy_set true (.obj false [("a", .obj false [("b", .prim 1)])])
        ["a"] "b" (.prim 2) =
      ⟨.obj false [("a", .obj false [("b", .prim 2)])], true,
       [⟨.set, ["a", "b"], .node (.obj false [("b", .prim 2)]),
         some (.prim 2), .prim 1⟩]⟩ := rfl

/-- C2 counterexample: deleting the absent key `b` through the deep proxy
of a Ref over `{a: 1}` is a no-op mutation (the object is unchanged), yet
the trap reports success — as `Reflect.deleteProperty` does on a missing
key — and one ChangeEvent is emitted, contradicting the claim that a
no-op mutation emits no event. -/
theorem C2_noop_delete_emits :
    (createProxy_delete true (.obj false [("a", .prim 1)]) [] "b").events.length = 1 ∧
    (createProxy_delete true (.obj false [("a", .prim 1)]) [] "b").root =
      .obj false [("a", .prim 1)] ∧
    (createProxy_delete true (.obj false [("a", .prim 1)]) [] "b").ok = true :=
  ⟨rfl, rfl, rfl⟩

/-- C2 amended: a ChangeEvent is emitted exactly when the underlying
operation reports success and a callback is registered — one event for a
reported-successful mutation, none for a rejected one.  Deleting an
absent key reports success (it is a no-op that `Reflect.deleteProperty`
accepts) and therefore does emit an event. -/
theorem C2_event_iff_reported_success (cb : Bool) (root : JSVal)
    (p : List String) (k : String) (v : JSVal) :
    ((createProxy_set cb root p k v).events.length =
       if (createProxy_set cb root p k v).ok && cb then 1 else 0) ∧
    ((createProxy_delete cb root p k).events.length =
       if (createProxy_delete cb root p k).ok && cb then 1 else 0) ∧
    ((ref_outer_set cb root k v).events.length =
       if (ref_outer_set cb root k v).ok && cb then 1 else 0) := by
  refine ⟨createProxy_setAux_events cb p [] root k v,
          createProxy_deleteAux_events cb p [] root k,
          ?_⟩
  by_cases hk : k = "value" <;> cases cb <;> simp [ref_outer_set, hk]

/-- C3: the code lets a subscriber exception abort the fan-out.  On a
container with subscribers `[throwing, normal]`, writing `5` stores the
value, invokes only the first subscriber (no `call 1` action appears),
lets the exception propagate out of the setter (completion flag `false`)
and never reaches the history append (`_values` stays empty) — whereas
the claim (and the spec's stated intent) requires the second subscriber
to be invoked and the exception to be contained. -/
theorem C3_throwing_subscriber_aborts :
    (setValue ⟨0, [], [fun _ => true, fun _ => false]⟩ (5 : Int)).2 =
      ([.store 5, .call 0 5], false) ∧
    (setValue ⟨0, [], [fun _ => true, fun _ => false]⟩ (5 : Int)).1._values =
      [] ∧
    (setValue ⟨0, [], [fun _ => true, fun _ => false]⟩ (5 : Int)).1._value = 5 :=
  ⟨rfl, rfl, rfl⟩

/-- C4: after any sequence of writes against non-throwing subscribers,
`history()` called at time `t0` resolves at `t0 + delayMs` — a fixed
non-zero delay, never instantaneous — with exactly the ordered list of
written values: the initial value is excluded and duplicates are kept. -/
theorem C4_history_full_log (subs : List (Int → Bool)) (vs : List Int) (t0 : Nat)
    (hsubs : ∀ s ∈ subs, ∀ v, s v = false) :
    historyRun (runWrites ⟨0, [], subs⟩ vs) t0 [] = (t0 + delayMs, vs) ∧
    t0 < t0 + delayMs := by
  constructor
  · have h := runWrites_spec subs hsubs vs ⟨0, [], subs⟩ rfl
    simp only [historyRun, runWrites]
    simpa [historyRun, runWrites] using h.1
  · simp [delayMs]

/-- C4 witness: with no subscribers and the duplicate-containing write
sequence `1, 2, 2`, `history()` called at time `3` resolves at `1003`
with `[1, 2, 2]`. -/
theorem C4_history_full_log_witness :
    historyRun (runWrites ⟨0, [], []⟩ [1, 2, 2]) 3 [] = (3 + delayMs, [1, 2, 2]) ∧
    3 < 3 + delayMs :=
  C4_history_full_log [] [1, 2, 2] 3 (by simp)

/-- C5: with a registered callback, writing the key `value` on the outer
handle always succeeds and emits exactly one ChangeEvent with operation
SET, empty path, root-wrapper target, the previously stored value as
oldValue and the post-write stored value as newValue. -/
theorem C5_root_value_write (stored v : JSVal) :
    ref_outer_set true stored "value" v =
      ⟨v, true, [⟨.set, [], .rootWrapper, some v, stored⟩]⟩ := by
  simp [ref_outer_set]

/-- C6: writing any key other than `value` on the outer handle is a
silent no-op reporting failure: the stored state is unchanged and no
event is emitted, whether or not a callback is registered. -/
theorem C6_nonvalue_write_rejected (cb : Bool) (stored : JSVal) (k : String)
    (v : JSVal) (hk : k ≠ "value") :
    ref_outer_set cb stored k v = ⟨stored, false, []⟩ := by
  simp [ref_outer_set, hk]

/-- C6 witness: `ref.foo = 1` on a Ref over `0` with a callback changes
nothing, reports failure and emits nothing. -/
theorem C6_nonvalue_write_rejected_witness :
    ("foo" : String) ≠ "value" ∧
    ref_outer_set true (.prim 0) "foo" (.prim 1) = ⟨.prim 0, false, []⟩ :=
  ⟨by decide, C6_nonvalue_write_rejected true (.prim 0) "foo" (.prim 1) (by decide)⟩

/-- C7 counterexample: for a Ref over `{a: {value: 5}}`, the nested read
`ref.value.a.value` hits the sentinel branch of the deep `get` trap — the
`key === 'value'` check is unconditional at every layer, not confined to
the wrapping boundary — and returns the raw target object
`{value: 5}` rather than the property's underlying value `5`. -/
theorem C7_leaf_value_read_returns_target :
    readStep (readStep (ref_outer_get
        (.obj false [("a", .obj false [("value", .prim 5)])]) "value") "a")
        "value" =
      .raw (.obj false [("value", .prim 5)]) ∧
    JSVal.obj false [("value", .prim 5)] ≠ JSVal.prim 5 :=
  ⟨rfl, fun h => JSVal.noConfusion h⟩

/-- C7 amended: the `value` sentinel of the deep observation layer
applies at every layer, whatever its depth: reading the key `value` on
any deep proxy returns that layer's raw target object, never the
property stored under the key `value`. -/
theorem C7_sentinel_every_layer (target : JSVal) (path : List String) :
    createProxy_get target path "value" = .raw target := by
  simp [createProxy_get]

/-- C8 counterexample: on a container with one (non-throwing) subscriber,
writing `5` produces the action trace `store, call, append`: the history
append follows the subscriber invocation, so the claim that the append
precedes subscriber invocation is false. -/
theorem C8_append_after_calls_trace :
    (setValue ⟨0, [], [fun _ => false]⟩ (5 : Int)).2.1 =
      [.store 5, .call 0 5, .append 5] ∧
    appendsPrecedeCalls (setValue ⟨0, [], [fun _ => false]⟩ (5 : Int)).2.1 =
      false :=
  ⟨rfl, rfl⟩

/-- C8 amended: every write first stores the new value (the trace starts
with `store`), then invokes the subscribers, and only afterwards — and
only if no subscriber threw — appends the value to the history log:
every `call` action precedes every `append` action in the trace, and on
a completed fan-out the value (duplicates included) is appended. -/
theorem C8_store_notify_then_append (st : ReactiveState Int) (v : Int) :
    (∃ tr, (setValue st v).2.1 = Action.store v :: tr) ∧
    callsPrecedeAppends (setValue st v).2.1 = true ∧
    ((setValue st v).2.2 = true →
      (setValue st v).1._values = st._values ++ [v]) := by
  by_cases h : (notifyAux st.subscribers 0 v).2 = true
  · have htr : (setValue st v).2.1 =
        Action.store v :: ((notifyAux st.subscribers 0 v).1 ++ [.append v]) := by
      simp [setValue, h]
    refine ⟨⟨(notifyAux st.subscribers 0 v).1 ++ [.append v], htr⟩, ?_, ?_⟩
    · rw [htr]
      have hcalls := notifyAux_calls st.subscribers v 0
      simpa [callsPrecedeAppends, isAppend] using
        callsPrecedeAppends_calls_append v (notifyAux st.subscribers 0 v).1 hcalls
    · intro _
      simp [setValue, h]
  · have htr : (setValue st v).2.1 =
        Action.store v :: (notifyAux st.subscribers 0 v).1 := by
      simp [setValue, h]
    refine ⟨⟨(notifyAux st.subscribers 0 v).1, htr⟩, ?_, ?_⟩
    · rw [htr]
      have hcalls := notifyAux_calls st.subscribers v 0
      have hno : ∀ a ∈ (notifyAux st.subscribers 0 v).1, isAppend a = false :=
        fun a ha => isAppend_false_of_isCall a (hcalls a ha)
      simpa [callsPrecedeAppends, isAppend] using
        callsPrecedeAppends_no_append (notifyAux st.subscribers 0 v).1 hno
    · intro hc
      have hfalse : (setValue st v).2.2 = false := by simp [setValue, h]
      rw [hc] at hfalse
      exact absurd hfalse (by simp)

/-- C8 amended witness: on a container over `0` with one subscriber,
writing `5` yields a trace headed by `store 5` where the call precedes
the append, and the value is appended to the log. -/
theorem C8_store_notify_then_append_witness :
    (∃ tr, (setValue (⟨0, [], [fun _ => false]⟩ : ReactiveState Int) 5).2.1 =
      Action.store 5 :: tr) ∧
    callsPrecedeAppends
      (setValue (⟨0, [], [fun _ => false]⟩ : ReactiveState Int) 5).2.1 = true ∧
    (setValue (⟨0, [], [fun _ => false]⟩ : ReactiveState Int) 5).1._values = [5] := by
  obtain ⟨h1, h2, h3⟩ := C8_store_notify_then_append ⟨0, [], [fun _ => false]⟩ 5
  exact ⟨h1, h2, h3 rfl⟩

/-- C9 counterexample: `history()` invoked at time `0` on a fresh
container (empty log) while `7` is written during the waiting window
resolves with `[7]`, not with the empty snapshot the log held at call
time. -/
theorem C9_resolves_with_live_log :
    historyRun ⟨0, [], []⟩ 0 [7] = (1000, [7]) ∧
    (⟨0, [], []⟩ : ReactiveState Int)._values = [] :=
  ⟨rfl, rfl⟩

/-- C9 amended: `history()` always resolves, exactly `delayMs` after the
call, and resolves with the history log as it stands at resolution time:
values written (against non-throwing subscribers) after the call but
before resolution are included. -/
theorem C9_resolution_time_log (st0 : ReactiveState Int) (t0 : Nat)
    (ws : List Int)
    (h : ∀ s ∈ st0.subscribers, ∀ v, s v = false) :
    historyRun st0 t0 ws = (t0 + delayMs, st0._values ++ ws) := by
  have hr := runWrites_spec st0.subscribers h ws st0 rfl
  simp only [historyRun]
  rw [hr.1]

/-- C9 amended witness: a fresh container, `history()` at time `0`, a
write of `7` during the window: resolution at `1000` with `[7]`. -/
theorem C9_resolution_time_log_witness :
    historyRun ⟨0, [], []⟩ 0 [7] = (1000, [7]) :=
  C9_resolution_time_log ⟨0, [], []⟩ 0 [7] (by simp)

/-- C10: `subscribe` appends the given functions, in argument order, to
the end of the subscriber list and does nothing else: the current value
and the history log are unchanged (and the embedding of the method body
performs no subscriber invocation at all). -/
theorem C10_subscribe_appends_only {T : Type} (st : ReactiveState T)
    (newSubs : List (T → Bool)) :
    (subscribe st newSubs)._value = st._value ∧
    (subscribe st newSubs)._values = st._values ∧
    (subscribe st newSubs).subscribers = st.subscribers ++ newSubs := by
  induction newSubs generalizing st with
  | nil => simp [subscribe]
  | cons s rest ih =>
      have hstep : subscribe st (s :: rest) =
          subscribe ⟨st._value, st._values, st.subscribers ++ [s]⟩ rest := rfl
      rw [hstep]
      obtain ⟨h1, h2, h3⟩ := ih ⟨st._value, st._values, st.subscribers ++ [s]⟩
      exact ⟨h1, h2, by simpa [List.append_assoc] using h3⟩

end SocketApp
